import Mathlib

/-!
# Verification of the `my_malloc` first-fit allocator

A shallow embedding of `src/my_malloc.cpp`: a first-fit heap allocator over a
single `mmap`-ed arena, with an intrusive singly linked free list, in-place
block splitting, and forward-only coalescing.

Modelling choices:
* A free-list node (`node_t`) is modelled by its start address in the arena
  together with its `size` field.  The `next` pointer is represented by list
  order: the free list reachable from `head` is a `List node_t`, whose first
  element is the node `head` points to and where each element's `next` points
  to the following element (`NULL` at the end).
* `size_t` values are natural numbers; every arithmetic operation the C code
  performs on `size_t` is reduced modulo `W = 2 ^ 64` exactly where the code
  performs it (64-bit platform, as implied by `mmap`).
* The process-wide `head` pointer, which is `NULL` until `heap()` lazily
  initializes the arena, is modelled as `Option (List node_t)`: `none` is the
  uninitialized state, `some l` the initialized state with free list `l`.
  Stateful C functions become state-passing Lean functions.
* `my_free` reads the header stored at `pointer - sizeof(header_t)`; memory
  outside the free list is not otherwise modelled, so `my_free` takes the
  read operation (address ↦ header contents) as an explicit argument.
-/

namespace MyMalloc

/-- Width of `size_t` on the 64-bit platform: arithmetic is modulo `2 ^ 64`. -/
def W : Nat := 2 ^ 64

/-- Unsigned (`size_t`) subtraction: wraps modulo `W` on underflow. -/
def usub (a b : Nat) : Nat := (a % W + (W - b % W)) % W

/-- Modelled from the spec: the header `my_malloc.h` is not in the repository.
A free-list descriptor `node_t` holds a `size_t size` and a `node_t *next`,
16 bytes on a 64-bit platform ("descriptor overhead"). -/
def sizeof_node : Nat := 16

/-- Modelled from the spec: the header `my_malloc.h` is not in the repository.
An allocated-block header `header_t` holds `size` and the `magic` tag;
the spec's concrete scenario uses the same overhead `H` for free descriptors
and allocated headers, so `sizeof(header_t) = 16` as well. -/
def sizeof_header : Nat := 16

/-- Modelled from the spec: the fixed sentinel tag (`MAGIC`) marking allocated
blocks; its exact value lives in the missing header.  Only its fixedness
matters. -/
def MAGIC : Nat := 3735928559

/-- Modelled from the spec/code comment: the arena is "a page of memory"
obtained from `mmap`, so `HEAP_SIZE = 4096`. -/
def HEAP_SIZE : Nat := 4096

/-- A free-list node: its start address in the arena and its `size` field.
The `next` pointer is represented by position in a `List node_t`. -/
structure node_t where
  addr : Nat
  size : Nat
deriving DecidableEq

/-- An allocated-block header: `size` and `magic` fields as written in the
arena (the address where it sits is carried separately). -/
structure header_t where
  size : Nat
  magic : Nat
deriving DecidableEq

/-- Sum of the `size` fields of a free list (mathematical, no wrap-around);
used to state bounds. -/
def sumSizes (l : List node_t) : Nat := (l.map node_t.size).sum

/-- The free list written by `heap()` on first use: one node spanning the
whole arena, `size = HEAP_SIZE - sizeof(node_t)`, `next = NULL`.  The arena
base address is taken as 0. -/
def initHeap : List node_t := [⟨0, HEAP_SIZE - sizeof_node⟩]

/-- `heap()`: if `head` is `NULL`, map the arena and initialize the first free
node, then return `head`.  Returns the (list reachable from) `head` together
with the possibly-updated state. -/
def heap : Option (List node_t) → List node_t × Option (List node_t)
  | none => (initHeap, some initHeap)
  | some l => (l, some l)

/-- `reset_heap()`: only when `head != NULL`, unmap the arena, clear `head`,
and reinitialize via `heap()`.  When `head == NULL` it does nothing. -/
def reset_heap : Option (List node_t) → Option (List node_t)
  | none => none
  | some _ => (heap none).2

/-- `free_list()`: returns `head` as is, without calling `heap()` (no
initialization).  Value returned and state are both the current `head`. -/
def free_list (s : Option (List node_t)) : Option (List node_t) × Option (List node_t) :=
  (s, s)

/-- The summation loop of `available_memory`: `n += p->size` over the list,
with `size_t` wrap-around. -/
def available_memory_run (l : List node_t) : Nat :=
  l.foldl (fun n p => (n + p.size) % W) 0

/-- `available_memory()`: calls `heap()` (lazily initializing), then sums the
`size` fields of the free list. -/
def available_memory (s : Option (List node_t)) : Nat × Option (List node_t) :=
  ((heap s).1.foldl (fun n p => (n + p.size) % W) 0, (heap s).2)

/-- `number_of_free_nodes()`: calls `heap()`, then counts the free-list
entries. -/
def number_of_free_nodes (s : Option (List node_t)) : Nat × Option (List node_t) :=
  ((heap s).1.length, (heap s).2)

/-- Rendering of one `printf("%zd", size)`: `%zd` interprets the `size_t`
value as signed, so values at or above `2 ^ 63` print as negative. -/
def renderSize (n : Nat) : String :=
  if n < 2 ^ 63 then toString n else "-" ++ toString (W - n)

/-- `print_free_list()`: calls `heap()`, prints `Free(<size>)` for every node
joined by `->`, then a newline.  The produced text is returned. -/
def print_free_list (s : Option (List node_t)) : String × Option (List node_t) :=
  (String.intercalate "->" ((heap s).1.map fun p => "Free(" ++ renderSize p.size ++ ")")
      ++ "\n",
   (heap s).2)

/-- The first-fit condition of `find_free`:
`curr->size + sizeof(node_t) >= size + sizeof(header_t)` on `size_t`. -/
def fits (size : Nat) (curr : node_t) : Bool :=
  (size + sizeof_header) % W ≤ (curr.size + sizeof_node) % W

/-- The scanning loop of `find_free`, carrying the `prev` pointer (`NULL` at
entry).  On success it yields the found node and its predecessor; when no node
fits it yields `none` (the out-parameters keep their `NULL` initialization). -/
def find_free_loop (size : Nat) : List node_t → Option node_t → Option (node_t × Option node_t)
  | [], _ => none
  | curr :: rest, prev =>
    if fits size curr then some (curr, prev) else find_free_loop size rest (some curr)

/-- `find_free(size, &found, &previous)`: first-fit scan from the head. -/
def find_free (size : Nat) (l : List node_t) : Option (node_t × Option node_t) :=
  find_free_loop size l none

/-- Position (in list order) of the node `find_free` selects: the index of the
first node satisfying `fits`.  A pointer into the intrusive list is a node
value together with its position, so this is `find_free`'s result seen as an
index. -/
def find_free_idx (size : Nat) : List node_t → Option Nat
  | [] => none
  | curr :: rest =>
    if fits size curr then some 0 else (find_free_idx size rest).map Nat.succ

/-- `split(size, &previous, &free_block, &allocated)` for the found block at
position `i`: move the `free_block` pointer past `actual_size = size +
sizeof(header_t)` bytes, write the remainder node there (`size =
original->size - actual_size` on `size_t`, `next = original->next`), relink
(`head` when `previous == NULL`, else `previous->next`) to the remainder —
in list order both cases are `l.set i`, the remainder taking the found
block's position — and write the allocated header (`size`, `MAGIC`) at the
original address.  Returns the allocated header's address and contents,
and the updated free list. -/
def split (size : Nat) (i : Nat) (free_block : node_t) (l : List node_t) :
    (Nat × header_t) × List node_t :=
  let actual_size := (size + sizeof_header) % W
  let new_free : node_t := ⟨free_block.addr + actual_size, usub free_block.size actual_size⟩
  ((free_block.addr, ⟨size, MAGIC⟩), l.set i new_free)

/-- The body of `my_malloc` after `heap()` has run: `find_free`, then on
failure return `NULL` with the free list untouched, else `split` and return
the pointer just past the allocated header.  The written header's contents
are returned alongside the payload pointer (they are what memory holds at
`pointer - sizeof(header_t)`). -/
def my_malloc_list (size : Nat) (l : List node_t) : Option (Nat × header_t) × List node_t :=
  match find_free_idx size l with
  | none => (none, l)
  | some i =>
    match l.get? i with
    | none => (none, l)
    | some found =>
      let (ah, l') := split size i found l
      (some (ah.1 + sizeof_header, ah.2), l')

/-- `my_malloc(size)` including the lazy `heap()` initialization performed by
`find_free`. -/
def my_malloc (size : Nat) (s : Option (List node_t)) :
    Option (Nat × header_t) × Option (List node_t) :=
  let (l, _) := heap s
  let (r, l') := my_malloc_list size l
  (r, some l')

/-- `coalesce(free_block)`: walk from the given node; whenever the current
node's end address (`temp + temp->size + sizeof(node_t)` with `size_t`
block size) equals its list successor's address, absorb the successor
(`temp->size += temp->next->size + sizeof(node_t)`; `temp->next =
temp->next->next`) without advancing; otherwise advance.  Stops when the
successor is `NULL`. -/
def coalesce : List node_t → List node_t
  | [] => []
  | [temp] => [temp]
  | temp :: next :: rest =>
    if temp.addr + (temp.size + sizeof_node) % W = next.addr then
      coalesce (⟨temp.addr, (temp.size + (next.size + sizeof_node) % W) % W⟩ :: rest)
    else
      temp :: coalesce (next :: rest)
termination_by l => l.length

/-- `my_free(allocated)`: step back `sizeof(header_t)` bytes to the header,
`assert(h->magic == MAGIC)` (fatal abort on mismatch, modelled as `none`),
then reuse the storage as a free node (`size = h->size`, `next = head`),
`coalesce` from it, and make it the new `head`.  `readHeader` models the
memory read at the header address. -/
def my_free (allocated : Nat) (readHeader : Nat → header_t) (l : List node_t) :
    Option (List node_t) :=
  let haddr := allocated - sizeof_header
  let h := readHeader haddr
  if h.magic = MAGIC then
    some (coalesce (⟨haddr, h.size⟩ :: l))
  else
    none

/-! ## Basic lemmas about the embedding -/

theorem coalesce_nil : coalesce [] = [] := by rw [coalesce]

theorem coalesce_single (a : node_t) : coalesce [a] = [a] := by rw [coalesce]

theorem coalesce_cons_cons (a b : node_t) (rest : List node_t) :
    coalesce (a :: b :: rest) =
      if a.addr + (a.size + sizeof_node) % W = b.addr then
        coalesce (⟨a.addr, (a.size + (b.size + sizeof_node) % W) % W⟩ :: rest)
      else
        a :: coalesce (b :: rest) := by
  rw [coalesce]

theorem usub_eq_sub {a b : Nat} (h1 : b ≤ a) (h2 : a < W) : usub a b = a - b := by
  have ha : a % W = a := Nat.mod_eq_of_lt h2
  have hb : b % W = b := Nat.mod_eq_of_lt (lt_of_le_of_lt h1 h2)
  rw [usub, ha, hb]
  have h3 : b ≤ W := le_of_lt (lt_of_le_of_lt h1 h2)
  have h4 : a + (W - b) = W + (a - b) := by omega
  rw [h4, Nat.add_mod_left, Nat.mod_eq_of_lt (by omega)]

theorem sumSizes_nil : sumSizes [] = 0 := rfl

theorem sumSizes_cons (x : node_t) (l : List node_t) :
    sumSizes (x :: l) = x.size + sumSizes l := by
  simp [sumSizes]

/-- The `find_free` scanning loop returns the first fitting node together with
the node scanned just before it (`prev` at entry when the head already fits),
and returns nothing exactly when no node fits. -/
theorem find_free_loop_spec (size : Nat) (l : List node_t) :
    ∀ prev : Option node_t,
      (∀ f p, find_free_loop size l prev = some (f, p) →
        ∃ i, l.get? i = some f ∧ fits size f = true ∧
          (∀ j, j < i → ∀ nj, l.get? j = some nj → fits size nj = false) ∧
          p = if i = 0 then prev else l.get? (i - 1))
      ∧ (find_free_loop size l prev = none → ∀ n ∈ l, fits size n = false) := by
  induction l with
  | nil =>
    intro prev
    constructor
    · intro f p h
      simp [find_free_loop] at h
    · intro _ n hn
      simp at hn
  | cons curr rest ih =>
    intro prev
    constructor
    · intro f p h
      rw [find_free_loop] at h
      by_cases hf : fits size curr = true
      · rw [if_pos hf] at h
        simp only [Option.some.injEq, Prod.mk.injEq] at h
        obtain ⟨rfl, rfl⟩ := h
        exact ⟨0, by simp, hf, by omega, by simp⟩
      · rw [if_neg hf] at h
        obtain ⟨i, hget, hfit, hpre, hp⟩ := (ih (some curr)).1 f p h
        refine ⟨i + 1, by simpa using hget, hfit, ?_, ?_⟩
        · intro j hj nj hgj
          cases j with
          | zero =>
            simp at hgj
            subst hgj
            simpa using hf
          | succ j' =>
            exact hpre j' (by omega) nj (by simpa using hgj)
        · cases i with
          | zero =>
            simp at hp
            simpa using hp
          | succ i' =>
            simp at hp
            simpa using hp
    · intro h n hn
      rw [find_free_loop] at h
      by_cases hf : fits size curr = true
      · rw [if_pos hf] at h
        exact absurd h (by simp)
      · rw [if_neg hf] at h
        rcases List.mem_cons.1 hn with rfl | hn'
        · simpa using hf
        · exact (ih (some curr)).2 h n hn'

/-- When no node fits, `find_free_idx` finds nothing. -/
theorem find_free_idx_none (size : Nat) (l : List node_t)
    (h : ∀ n ∈ l, fits size n = false) : find_free_idx size l = none := by
  induction l with
  | nil => rfl
  | cons curr rest ih =>
    rw [find_free_idx]
    rw [h curr (by simp)]
    simp only [Bool.false_eq_true, if_false]
    rw [ih fun n hn => h n (by simp [hn])]
    rfl

/-- Auxiliary, with an explicit bound for the induction: `coalesce` keeps the
starting node first (with its address unchanged), and the addresses of the
nodes after it form a subsequence of the addresses originally after it. -/
theorem coalesce_head_tail_aux (n : Nat) :
    ∀ (x : node_t) (rest : List node_t), rest.length ≤ n →
      ∃ s t, coalesce (x :: rest) = ⟨x.addr, s⟩ :: t ∧
        (t.map node_t.addr).Sublist (rest.map node_t.addr) := by
  induction n with
  | zero =>
    intro x rest h
    have hx : rest = [] := List.eq_nil_of_length_eq_zero (by omega)
    subst hx
    exact ⟨x.size, [], coalesce_single x, List.Sublist.refl _⟩
  | succ n ih =>
    intro x rest h
    cases rest with
    | nil => exact ⟨x.size, [], coalesce_single x, List.Sublist.refl _⟩
    | cons b rest' =>
      rw [coalesce_cons_cons]
      by_cases hadj : x.addr + (x.size + sizeof_node) % W = b.addr
      · rw [if_pos hadj]
        obtain ⟨s, t, heq, hsub⟩ :=
          ih ⟨x.addr, (x.size + (b.size + sizeof_node) % W) % W⟩ rest' (by simp at h; omega)
        exact ⟨s, t, heq, hsub.trans (List.sublist_cons_self _ _)⟩
      · rw [if_neg hadj]
        obtain ⟨s, t, heq, hsub⟩ := ih b rest' (by simp at h; omega)
        refine ⟨x.size, ⟨b.addr, s⟩ :: t, by rw [heq], ?_⟩
        simpa using List.Sublist.cons₂ b.addr hsub

/-- `coalesce` keeps the starting node first, at its own address; everything
else in the output was already in the list after it (by address). -/
theorem coalesce_head_tail (x : node_t) (rest : List node_t) :
    ∃ s t, coalesce (x :: rest) = ⟨x.addr, s⟩ :: t ∧
      (t.map node_t.addr).Sublist (rest.map node_t.addr) :=
  coalesce_head_tail_aux rest.length x rest le_rfl

/-- The `available_memory` summation agrees with the mathematical sum while
no wrap-around occurs. -/
theorem foldl_sizes_eq (l : List node_t) :
    ∀ acc, acc + sumSizes l < W →
      l.foldl (fun n p => (n + p.size) % W) acc = acc + sumSizes l := by
  induction l with
  | nil => intro acc _; simp [sumSizes]
  | cons p rest ih =>
    intro acc hacc
    rw [sumSizes_cons] at hacc
    rw [List.foldl_cons, Nat.mod_eq_of_lt (by omega)]
    rw [ih (acc + p.size) (by omega), sumSizes_cons]
    omega

theorem available_memory_run_eq (l : List node_t) (h : sumSizes l < W) :
    available_memory_run l = sumSizes l := by
  simpa using foldl_sizes_eq l 0 (by omega)

/-- Auxiliary, with an explicit bound for the induction.  As long as the total
physical footprint (sizes plus one descriptor overhead per node) stays below
`W`, coalescing never decreases the sum of the free sizes, and conserves the
total footprint bound. -/
theorem coalesce_sum_aux (n : Nat) :
    ∀ l : List node_t, l.length ≤ n →
      sumSizes l + sizeof_node * l.length < W →
      sumSizes l ≤ sumSizes (coalesce l) ∧
        sumSizes (coalesce l) + sizeof_node * (coalesce l).length ≤
          sumSizes l + sizeof_node * l.length := by
  induction n with
  | zero =>
    intro l hl _
    have hx : l = [] := List.eq_nil_of_length_eq_zero (by omega)
    subst hx
    simp [coalesce_nil]
  | succ n ih =>
    intro l hl hbound
    have hsn : sizeof_node = 16 := rfl
    have hW : W = 18446744073709551616 := rfl
    match l with
    | [] => simp [coalesce_nil]
    | [a] => simp [coalesce_single]
    | a :: b :: rest =>
      rw [coalesce_cons_cons]
      simp only [sumSizes_cons, List.length_cons, hsn, hW] at hbound
      by_cases hadj : a.addr + (a.size + sizeof_node) % W = b.addr
      · rw [if_pos hadj]
        have hb16 : (b.size + sizeof_node) % W = b.size + sizeof_node := by
          rw [hsn, hW]
          exact Nat.mod_eq_of_lt (by omega)
        have hm : (a.size + (b.size + sizeof_node) % W) % W = a.size + (b.size + sizeof_node) := by
          rw [hb16, hsn, hW]
          exact Nat.mod_eq_of_lt (by omega)
        rw [hm]
        have hrec := ih (⟨a.addr, a.size + (b.size + sizeof_node)⟩ :: rest)
          (by simp at hl ⊢; omega)
          (by simp only [sumSizes_cons, List.length_cons, hsn, hW]; omega)
        simp only [sumSizes_cons, List.length_cons, hsn, hW] at hrec ⊢
        omega
      · rw [if_neg hadj]
        have hrec := ih (b :: rest) (by simp at hl ⊢; omega)
          (by simp only [sumSizes_cons, List.length_cons, hsn, hW]; omega)
        simp only [sumSizes_cons, List.length_cons, hsn, hW] at hrec ⊢
        omega

/-- Coalescing never decreases the sum of free sizes (each merge absorbs one
descriptor overhead into a size), and conserves the footprint bound. -/
theorem coalesce_sum (l : List node_t)
    (hbound : sumSizes l + sizeof_node * l.length < W) :
    sumSizes l ≤ sumSizes (coalesce l) ∧
      sumSizes (coalesce l) + sizeof_node * (coalesce l).length ≤
        sumSizes l + sizeof_node * l.length :=
  coalesce_sum_aux l.length l le_rfl hbound

/-! ## Claim theorems -/

theorem usub_underflow {a b : Nat} (h1 : a < b) (h2 : b < W) : usub a b = W - (b - a) := by
  have ha : a % W = a := Nat.mod_eq_of_lt (lt_trans h1 h2)
  have hb : b % W = b := Nat.mod_eq_of_lt h2
  rw [usub, ha, hb]
  have h3 : a + (W - b) = W - (b - a) := by omega
  rw [h3, Nat.mod_eq_of_lt (by omega)]

/-- Claim C2: `find_free` selects the first block in list order whose free
size satisfies the fit condition `S + sizeof(node_t) >= R + sizeof(header_t)`
(as computed on `size_t`), returns that block's immediate list predecessor
(`none` when the block is the head), skips every earlier block — each fails
the condition — and finds nothing exactly when no block fits. -/
theorem c2_find_free_first_fit (size : Nat) (l : List node_t) :
    (∀ f p, find_free size l = some (f, p) →
      ∃ i, l.get? i = some f ∧ fits size f = true ∧
        (∀ j, j < i → ∀ nj, l.get? j = some nj → fits size nj = false) ∧
        p = if i = 0 then none else l.get? (i - 1))
    ∧ (find_free size l = none → ∀ n ∈ l, fits size n = false) :=
  find_free_loop_spec size l none

/-- Witness for C2 at a concrete input: in `[⟨0,10⟩, ⟨100,50⟩]` with request
20, the head fails the fit, so the second node is selected with the head as
predecessor. -/
theorem c2_find_free_first_fit_witness :
    ∃ i, ([⟨0, 10⟩, ⟨100, 50⟩] : List node_t).get? i = some ⟨100, 50⟩ ∧
      fits 20 ⟨100, 50⟩ = true ∧
      (∀ j, j < i → ∀ nj, ([⟨0, 10⟩, ⟨100, 50⟩] : List node_t).get? j = some nj →
        fits 20 nj = false) ∧
      (some ⟨0, 10⟩ : Option node_t) =
        if i = 0 then none else ([⟨0, 10⟩, ⟨100, 50⟩] : List node_t).get? (i - 1) :=
  (c2_find_free_first_fit 20 [⟨0, 10⟩, ⟨100, 50⟩]).1 ⟨100, 50⟩ (some ⟨0, 10⟩) (by decide)

/-- Counterexample to C3 as stated over every allocator state: on the
uninitialized state, `my_malloc` of an unsatisfiable size returns `NULL` on
the not-found path, yet the free-list head is no longer `NULL` afterwards
(`find_free` called `heap()`, which lazily initialized the arena). -/
theorem c3_counterexample :
    (my_malloc 5000 none).1 = none ∧
    (free_list none).1 = none ∧
    (free_list (my_malloc 5000 none).2).1 = some initHeap ∧
    some initHeap ≠ (none : Option (List node_t)) := by
  refine ⟨by decide, rfl, by decide, by decide⟩

/-- Claim C3 (amended: once the heap is initialized): when no free block
satisfies the fit condition, `my_malloc` returns `NULL` and the allocator
state is unchanged — same free list (hence same head and same `size`/`next`
of every node), same `available_memory()`, same `number_of_free_nodes()`. -/
theorem c3_malloc_not_found_no_mutation (size : Nat) (l : List node_t)
    (h : ∀ n ∈ l, fits size n = false) :
    my_malloc size (some l) = (none, some l) ∧
    (free_list (my_malloc size (some l)).2).1 = some l ∧
    (available_memory (my_malloc size (some l)).2).1 = (available_memory (some l)).1 ∧
    (number_of_free_nodes (my_malloc size (some l)).2).1 =
      (number_of_free_nodes (some l)).1 := by
  have h1 : find_free_idx size l = none := find_free_idx_none size l h
  have h2 : my_malloc_list size l = (none, l) := by
    simp only [my_malloc_list, h1]
  simp [my_malloc, heap, h2, free_list, available_memory, number_of_free_nodes]

/-- Witness for C3 at a concrete input: a heap whose only free block (size
10) cannot fit a request of 4080. -/
theorem c3_malloc_not_found_no_mutation_witness :
    my_malloc 4080 (some [⟨0, 10⟩]) = (none, some [⟨0, 10⟩]) ∧
    (free_list (my_malloc 4080 (some [⟨0, 10⟩])).2).1 = some [⟨0, 10⟩] ∧
    (available_memory (my_malloc 4080 (some [⟨0, 10⟩])).2).1 =
      (available_memory (some [⟨0, 10⟩])).1 ∧
    (number_of_free_nodes (my_malloc 4080 (some [⟨0, 10⟩])).2).1 =
      (number_of_free_nodes (some [⟨0, 10⟩])).1 :=
  c3_malloc_not_found_no_mutation 4080 [⟨0, 10⟩] (by decide)

/-- Claim C5: `my_free` locates the header at `pointer - sizeof(header_t)`
and compares its tag to the `MAGIC` sentinel; on mismatch the process aborts
(`assert` failure, modelled as `none`: no free-list state is produced, in
particular no partial mutation), and only on a match does it proceed to the
mutated state. -/
theorem c5_free_tag_check (allocated : Nat) (readHeader : Nat → header_t)
    (l : List node_t) :
    ((readHeader (allocated - sizeof_header)).magic ≠ MAGIC →
      my_free allocated readHeader l = none)
    ∧ ((readHeader (allocated - sizeof_header)).magic = MAGIC →
      my_free allocated readHeader l =
        some (coalesce (⟨allocated - sizeof_header,
          (readHeader (allocated - sizeof_header)).size⟩ :: l))) := by
  constructor <;> intro h <;> simp [my_free, h]

/-- Witness for C5 at a concrete input: a header whose tag is 0 (not the
sentinel) makes `my_free` abort. -/
theorem c5_free_tag_check_witness :
    my_free 16 (fun _ => ⟨20, 0⟩) [⟨100, 50⟩] = none :=
  (c5_free_tag_check 16 (fun _ => ⟨20, 0⟩) [⟨100, 50⟩]).1 (by decide)

/-- Claim C6: the coalescer, started at a node: when the current node's end
address (`addr + (size + sizeof(node_t))` on `size_t`) equals its list
successor's address, it absorbs the successor's size plus `sizeof(node_t)`
into the current size and splices the successor out, re-checking at the same
node; otherwise it advances; it terminates when the successor is absent; and
the starting node is never merged into anything before it — it stays first,
at its own address, and the nodes after it are a subsequence (by address) of
those originally after it. -/
theorem c6_coalesce_step :
    (∀ (temp next : node_t) (rest : List node_t),
      temp.addr + (temp.size + sizeof_node) % W = next.addr →
      coalesce (temp :: next :: rest) =
        coalesce (⟨temp.addr, (temp.size + (next.size + sizeof_node) % W) % W⟩ :: rest))
    ∧ (∀ (temp next : node_t) (rest : List node_t),
      temp.addr + (temp.size + sizeof_node) % W ≠ next.addr →
      coalesce (temp :: next :: rest) = temp :: coalesce (next :: rest))
    ∧ (∀ temp : node_t, coalesce [temp] = [temp])
    ∧ (∀ (x : node_t) (rest : List node_t),
      ∃ s t, coalesce (x :: rest) = ⟨x.addr, s⟩ :: t ∧
        (t.map node_t.addr).Sublist (rest.map node_t.addr)) := by
  refine ⟨?_, ?_, coalesce_single, coalesce_head_tail⟩
  · intro temp next rest h
    rw [coalesce_cons_cons, if_pos h]
  · intro temp next rest h
    rw [coalesce_cons_cons, if_neg h]

/-- Witness for C6 at a concrete input: `⟨0,20⟩` ends exactly at address 36,
where `⟨36,50⟩` starts, so the two merge without advancing. -/
theorem c6_coalesce_step_witness :
    coalesce [⟨0, 20⟩, ⟨36, 50⟩] =
      coalesce [(⟨0, (20 + (50 + sizeof_node) % W) % W⟩ : node_t)] :=
  c6_coalesce_step.1 ⟨0, 20⟩ ⟨36, 50⟩ [] (by decide)

/-- Claim C7: on a successful `my_free` (tag check passes), the freed block's
storage becomes a free node whose `next` is the head as of the start of the
call (it is consed in front of the old list), the coalescer runs from that
node, and the resulting head is exactly that (possibly forward-coalesced)
node: the new head sits at the freed block's header address. -/
theorem c7_free_head (allocated : Nat) (readHeader : Nat → header_t)
    (l : List node_t)
    (h : (readHeader (allocated - sizeof_header)).magic = MAGIC) :
    ∃ s t,
      my_free allocated readHeader l =
        some (coalesce (⟨allocated - sizeof_header,
          (readHeader (allocated - sizeof_header)).size⟩ :: l)) ∧
      coalesce (⟨allocated - sizeof_header,
          (readHeader (allocated - sizeof_header)).size⟩ :: l) =
        ⟨allocated - sizeof_header, s⟩ :: t := by
  obtain ⟨s, t, heq, _⟩ :=
    coalesce_head_tail ⟨allocated - sizeof_header,
      (readHeader (allocated - sizeof_header)).size⟩ l
  exact ⟨s, t, by simp [my_free, h], heq⟩

/-- Witness for C7 at a concrete input: freeing the block with payload at 16
(header at 0, size 20) in front of free list `[⟨100,50⟩]`. -/
theorem c7_free_head_witness :
    ∃ s t,
      my_free 16 (fun _ => ⟨20, MAGIC⟩) [⟨100, 50⟩] =
        some (coalesce (⟨16 - sizeof_header,
          ((fun _ => (⟨20, MAGIC⟩ : header_t)) (16 - sizeof_header)).size⟩ :: [⟨100, 50⟩])) ∧
      coalesce (⟨16 - sizeof_header,
          ((fun _ => (⟨20, MAGIC⟩ : header_t)) (16 - sizeof_header)).size⟩ :: [⟨100, 50⟩]) =
        ⟨16 - sizeof_header, s⟩ :: t :=
  c7_free_head 16 (fun _ => ⟨20, MAGIC⟩) [⟨100, 50⟩] (by decide)

/-- Counterexample to C1 as stated: for a found free block whose free size
exactly equals `actual_size` (here `size = 16`, `actual_size = 32`, block
size 32, which fits: `32 + 16 ≥ 16 + 16`), the subtraction does NOT
underflow — the remainder node is written with size 0 (a zero-size remainder,
present in the list), not with a very large value. -/
theorem c1_counterexample :
    my_malloc_list 16 [⟨0, 32⟩] = (some (16, ⟨16, MAGIC⟩), [⟨32, 0⟩]) ∧
    (32 : Nat) = (16 + sizeof_header) % W ∧
    ¬ (W - sizeof_header ≤ (0 : Nat)) := by
  refine ⟨by decide, by decide, by decide⟩

/-- Claim C1 (amended): `split` computes the remainder size by the unsigned
subtraction `original_free_size - actual_size`.  When the free size `S`
exactly equals `actual_size` the result is 0: a zero-size remainder node is
written (present, not huge).  The underflow to a very large value (at least
`2^64 - sizeof(header_t)`, since a found block has `S ≥ size` when the
overheads are equal) occurs exactly when `S` is strictly below
`actual_size`. -/
theorem c1_split_exact_fit (size : Nat) (B : node_t) (i : Nat) (l : List node_t)
    (hR : size + sizeof_header < W) (hS : B.size < W) :
    (B.size = size + sizeof_header →
      (split size i B l).2 = l.set i ⟨B.addr + (size + sizeof_header), 0⟩)
    ∧ (size ≤ B.size → B.size < size + sizeof_header →
      (split size i B l).2 =
        l.set i ⟨B.addr + (size + sizeof_header),
          W - (size + sizeof_header - B.size)⟩ ∧
      W - sizeof_header ≤ W - (size + sizeof_header - B.size)) := by
  have hact : (size + sizeof_header) % W = size + sizeof_header := Nat.mod_eq_of_lt hR
  have hsh : sizeof_header = 16 := rfl
  have hWv : W = 18446744073709551616 := rfl
  constructor
  · intro hEq
    have h0 : usub B.size (size + sizeof_header) = 0 := by
      rw [hEq, usub_eq_sub le_rfl (hEq ▸ hS)]
      omega
    simp only [split, hact, h0]
  · intro hle hlt
    have hu : usub B.size (size + sizeof_header) =
        W - (size + sizeof_header - B.size) := usub_underflow hlt hR
    constructor
    · simp only [split, hact, hu]
    · omega

/-- Witness for C1 at a concrete input: request 20 against a found block of
free size 30 (which fits: `30 + 16 ≥ 20 + 16`, yet `30 < 36 = actual_size`);
the remainder is written with the underflowed size `2^64 - 6`. -/
theorem c1_split_exact_fit_witness :
    (split 20 0 ⟨0, 30⟩ [⟨0, 30⟩]).2 =
      [⟨0, 30⟩].set 0 ⟨0 + (20 + sizeof_header), W - (20 + sizeof_header - 30)⟩ ∧
    W - sizeof_header ≤ W - (20 + sizeof_header - 30) :=
  (c1_split_exact_fit 20 ⟨0, 30⟩ 0 [⟨0, 30⟩] (by decide) (by decide)).2
    (by decide) (by decide)

/-- Claim C4: a successful allocation of `size` from the found block `B` at
position `i`, when `B`'s free size strictly exceeds
`actual_size = size + sizeof(header_t)`: the free remainder is written at
`address(B) + actual_size` with size `B.size - actual_size`, taking `B`'s
place in the list (so its `next` is `B`'s old successor, the predecessor —
or the head, when `i = 0` — now links to it, and every other node is
untouched); `B`'s storage becomes an allocated header `(size, MAGIC)`; and
the returned payload pointer is the header address plus
`sizeof(header_t)`. -/
theorem c4_split_success (size : Nat) (l : List node_t) (i : Nat) (B : node_t)
    (hfind : find_free_idx size l = some i) (hget : l.get? i = some B)
    (hR : size + sizeof_header < W) (hS : B.size < W)
    (hlt : size + sizeof_header < B.size) :
    my_malloc_list size l =
      (some (B.addr + sizeof_header, ⟨size, MAGIC⟩),
        l.set i ⟨B.addr + (size + sizeof_header), B.size - (size + sizeof_header)⟩) ∧
    (l.set i ⟨B.addr + (size + sizeof_header), B.size - (size + sizeof_header)⟩).get? i =
      some ⟨B.addr + (size + sizeof_header), B.size - (size + sizeof_header)⟩ ∧
    (∀ j, j ≠ i →
      (l.set i ⟨B.addr + (size + sizeof_header),
        B.size - (size + sizeof_header)⟩).get? j = l.get? j) ∧
    (i = 0 →
      (l.set i ⟨B.addr + (size + sizeof_header),
        B.size - (size + sizeof_header)⟩).head? =
        some ⟨B.addr + (size + sizeof_header), B.size - (size + sizeof_header)⟩) ∧
    0 < B.size - (size + sizeof_header) := by
  have hact : (size + sizeof_header) % W = size + sizeof_header := Nat.mod_eq_of_lt hR
  have husub : usub B.size (size + sizeof_header) = B.size - (size + sizeof_header) :=
    usub_eq_sub (le_of_lt hlt) hS
  have hilen : i < l.length := by
    rcases List.get?_eq_some.1 hget with ⟨h', _⟩
    exact h'
  refine ⟨?_, ?_, ?_, ?_, by omega⟩
  · simp only [my_malloc_list, hfind, hget, split, hact, husub]
  · exact List.get?_set_eq_of_lt _ hilen
  · intro j hj
    exact List.get?_set_ne _ _ (Ne.symm hj)
  · intro hi
    subst hi
    cases l with
    | nil => simp at hget
    | cons x t => simp
/-- Witness for C4 at a concrete input: request 20 on the single-block list
`[⟨0, 100⟩]`; the block is the head, the remainder `⟨36, 64⟩` becomes the new
head, and the payload pointer is 16. -/
theorem c4_split_success_witness :
    my_malloc_list 20 [⟨0, 100⟩] =
      (some ((0 : Nat) + sizeof_header, ⟨20, MAGIC⟩),
        ([⟨0, 100⟩] : List node_t).set 0
          ⟨0 + (20 + sizeof_header), 100 - (20 + sizeof_header)⟩) ∧
    (([⟨0, 100⟩] : List node_t).set 0
        ⟨0 + (20 + sizeof_header), 100 - (20 + sizeof_header)⟩).get? 0 =
      some ⟨0 + (20 + sizeof_header), 100 - (20 + sizeof_header)⟩ ∧
    (∀ j, j ≠ 0 →
      (([⟨0, 100⟩] : List node_t).set 0
        ⟨0 + (20 + sizeof_header), 100 - (20 + sizeof_header)⟩).get? j =
        ([⟨0, 100⟩] : List node_t).get? j) ∧
    ((0 : Nat) = 0 →
      (([⟨0, 100⟩] : List node_t).set 0
        ⟨0 + (20 + sizeof_header), 100 - (20 + sizeof_header)⟩).head? =
        some ⟨0 + (20 + sizeof_header), 100 - (20 + sizeof_header)⟩) ∧
    0 < 100 - (20 + sizeof_header) :=
  c4_split_success 20 [⟨0, 100⟩] 0 ⟨0, 100⟩ (by decide) (by decide) (by decide)
    (by decide) (by decide)

/-- Claim C9: the diagnostics do not mutate an initialized allocator state:
`available_memory()`, `number_of_free_nodes()`, `print_free_list()` and
`free_list()` all leave the free list exactly as it was.  As the claim notes,
the accessors other than `free_list()` go through `heap()`: on the
uninitialized state they initialize the arena (to `initHeap`), while
`free_list()` alone does not initialize. -/
theorem c9_diagnostics_no_mutation :
    (∀ l : List node_t,
      (available_memory (some l)).2 = some l ∧
      (number_of_free_nodes (some l)).2 = some l ∧
      (print_free_list (some l)).2 = some l ∧
      (free_list (some l)).2 = some l)
    ∧ (free_list none).2 = none
    ∧ (available_memory none).2 = some initHeap
    ∧ (number_of_free_nodes none).2 = some initHeap
    ∧ (print_free_list none).2 = some initHeap := by
  exact ⟨fun l => ⟨rfl, rfl, rfl, rfl⟩, rfl, rfl, rfl, rfl⟩

/-- Claim C10: `reset_heap()` on a never-initialized heap (`head == NULL`) is
a no-op: the head reference stays `NULL` (the arena is not reserved, `heap()`
is not invoked), so `free_list()` still returns `NULL`; only on an
initialized heap does it unmap and reinitialize to the single full-arena free
block. -/
theorem c10_reset_heap :
    reset_heap none = none ∧
    (free_list (reset_heap none)).1 = none ∧
    (∀ l : List node_t, reset_heap (some l) = some [⟨0, HEAP_SIZE - sizeof_node⟩]) := by
  exact ⟨rfl, rfl, fun l => rfl⟩

/-- Reduction of `my_malloc_list` when the head block fits: the remainder
takes the head position. -/
theorem my_malloc_list_head_fit (size : Nat) (B : node_t) (rest : List node_t)
    (hfits : fits size B = true) :
    my_malloc_list size (B :: rest) =
      (some (B.addr + sizeof_header, ⟨size, MAGIC⟩),
        ⟨B.addr + (size + sizeof_header) % W,
          usub B.size ((size + sizeof_header) % W)⟩ :: rest) := by
  have hidx : find_free_idx size (B :: rest) = some 0 := by
    simp [find_free_idx, hfits]
  simp only [my_malloc_list, hidx, split]
  rfl

/-- Counterexample to C8 as stated: a reachable state (obtainable from a
fresh heap by two allocations and a release) in which `allocate(40)` succeeds
from a non-head block, and the immediate `release` of the returned pointer
leaves `available_memory()` 16 bytes — one `sizeof(header_t)` of accounting —
BELOW its pre-allocation value: the freed node and the split remainder are
not list-adjacent, so the coalescer cannot rejoin them. -/
theorem c8_counterexample :
    my_malloc_list 40 [⟨0, 10⟩, ⟨442, 3638⟩] =
      (some (442 + sizeof_header, ⟨40, MAGIC⟩), [⟨0, 10⟩, ⟨498, 3582⟩]) ∧
    my_free (442 + sizeof_header) (fun _ => ⟨40, MAGIC⟩) [⟨0, 10⟩, ⟨498, 3582⟩] =
      some [⟨442, 40⟩, ⟨0, 10⟩, ⟨498, 3582⟩] ∧
    available_memory_run [⟨442, 40⟩, ⟨0, 10⟩, ⟨498, 3582⟩] <
      available_memory_run [⟨0, 10⟩, ⟨442, 3638⟩] := by
  have h1 : coalesce [⟨498, 3582⟩] = [⟨498, 3582⟩] := coalesce_single _
  have h2 : coalesce [⟨0, 10⟩, ⟨498, 3582⟩] = ⟨0, 10⟩ :: coalesce [⟨498, 3582⟩] := by
    rw [coalesce_cons_cons, if_neg (by decide)]
  have h3 : coalesce [⟨442, 40⟩, ⟨0, 10⟩, ⟨498, 3582⟩] =
      ⟨442, 40⟩ :: coalesce [⟨0, 10⟩, ⟨498, 3582⟩] := by
    rw [coalesce_cons_cons, if_neg (by decide)]
  refine ⟨by decide, ?_, by decide⟩
  simp only [my_free, sizeof_header, Nat.add_sub_cancel]
  rw [if_pos trivial, h3, h2, h1]

/-- Claim C8 (amended: the selected block is the free-list head, its free
size covers `actual_size` without underflow, and the total free footprint is
within `size_t` range): after a successful `allocate` from the head block and
an immediate `release` of the returned pointer, `available_memory()` is at
least its pre-allocation value — the freed block is list- and
physically-adjacent to the split remainder, so the coalescer rejoins them.
In general (found block not the head) the value can drop by
`sizeof(header_t)`, as the counterexample shows. -/
theorem c8_malloc_free_available (B : node_t) (rest : List node_t) (size : Nat)
    (hfit : size + sizeof_header ≤ B.size)
    (hbound : sumSizes (B :: rest) + sizeof_node * (B :: rest).length < W) :
    ∃ payload hdr l1 l2,
      my_malloc_list size (B :: rest) = (some (payload, hdr), l1) ∧
      my_free payload (fun _ => hdr) l1 = some l2 ∧
      available_memory_run (B :: rest) ≤ available_memory_run l2 := by
  have hsh : sizeof_header = 16 := rfl
  have hsn : sizeof_node = 16 := rfl
  have hWv : W = 18446744073709551616 := rfl
  have hbound' : B.size + sumSizes rest + 16 * (rest.length + 1) < 18446744073709551616 := by
    rw [sumSizes_cons, List.length_cons, hsn, hWv] at hbound
    omega
  have hBW : B.size < W := by rw [hWv]; omega
  have hRW : size + sizeof_header < W := by rw [hWv, hsh]; rw [hsh] at hfit; omega
  have hact : (size + sizeof_header) % W = size + sizeof_header := Nat.mod_eq_of_lt hRW
  have hfits : fits size B = true := by
    simp only [fits, decide_eq_true_eq, hact]
    have hBn : (B.size + sizeof_node) % W = B.size + sizeof_node := by
      rw [hsn, hWv]
      exact Nat.mod_eq_of_lt (by omega)
    rw [hBn, hsh, hsn]
    rw [hsh] at hfit
    omega
  have husub : usub B.size ((size + sizeof_header) % W) = B.size - (size + sizeof_header) := by
    rw [hact]
    exact usub_eq_sub hfit hBW
  refine ⟨B.addr + sizeof_header, ⟨size, MAGIC⟩,
    ⟨B.addr + (size + sizeof_header), B.size - (size + sizeof_header)⟩ :: rest,
    coalesce (⟨B.addr, B.size⟩ :: rest), ?_, ?_, ?_⟩
  · rw [my_malloc_list_head_fit size B rest hfits, husub, hact]
  · have hstep : coalesce (⟨B.addr, size⟩ ::
        ⟨B.addr + (size + sizeof_header), B.size - (size + sizeof_header)⟩ :: rest) =
        coalesce (⟨B.addr, B.size⟩ :: rest) := by
      rw [coalesce_cons_cons]
      have hadj : (⟨B.addr, size⟩ : node_t).addr +
          ((⟨B.addr, size⟩ : node_t).size + sizeof_node) % W =
          (⟨B.addr + (size + sizeof_header),
            B.size - (size + sizeof_header)⟩ : node_t).addr := by
        show B.addr + (size + sizeof_node) % W = B.addr + (size + sizeof_header)
        rw [hsn, hsh]
        rw [hsh, hWv] at hRW
        rw [hWv, Nat.mod_eq_of_lt (by omega)]
      rw [if_pos hadj]
      show coalesce (⟨B.addr,
        (size + ((B.size - (size + sizeof_header) + sizeof_node) % W)) % W⟩ :: rest) = _
      have hmerge : (size + ((B.size - (size + sizeof_header) + sizeof_node) % W)) % W
          = B.size := by
        rw [hsh, hsn, hWv]
        rw [hsh] at hfit
        omega
      rw [hmerge]
    simp only [my_free, sizeof_header, Nat.add_sub_cancel]
    rw [if_pos trivial]
    rw [hsh] at hstep
    rw [hstep]
  · have hcs := coalesce_sum (⟨B.addr, B.size⟩ :: rest)
      (by simp only [sumSizes_cons, List.length_cons, hsn, hWv]; omega)
    obtain ⟨hle, hinv⟩ := hcs
    simp only [sumSizes_cons] at hle
    simp only [sumSizes_cons, List.length_cons, hsn, hWv] at hinv
    have havail1 : available_memory_run (B :: rest) = sumSizes (B :: rest) :=
      available_memory_run_eq _ (by simp only [sumSizes_cons, hWv]; omega)
    have havail2 : available_memory_run (coalesce (⟨B.addr, B.size⟩ :: rest)) =
        sumSizes (coalesce (⟨B.addr, B.size⟩ :: rest)) := by
      apply available_memory_run_eq
      rw [hWv]
      omega
    rw [havail1, havail2, sumSizes_cons]
    omega

/-- Witness for C8 at a concrete input: a single free block of size 100,
request 20; the split remainder coalesces back on release. -/
theorem c8_malloc_free_available_witness :
    ∃ payload hdr l1 l2,
      my_malloc_list 20 [⟨0, 100⟩] = (some (payload, hdr), l1) ∧
      my_free payload (fun _ => hdr) l1 = some l2 ∧
      available_memory_run [⟨0, 100⟩] ≤ available_memory_run l2 :=
  c8_malloc_free_available ⟨0, 100⟩ [] 20 (by decide) (by decide)

end MyMalloc
